import Mathlib

/-!
Verification of the domain-key library: a shallow embedding of the key
construction pipeline from src/key.rs, the domain policy objects from
src/domain.rs, the error taxonomy from src/error.rs and the validation-only
entry point from src/validation.rs.

Strings are modelled as lists of unicode scalar values (List Char), string
lengths and character positions as UTF-8 byte counts, matching str::len and
str::char_indices in the source.  The 64-bit hash algorithm is an injected
capability (a parameter of type List Char -> Nat), matching the library's
compile-time hash selection.  A domain (the KeyDomain trait) is modelled as a
record of its constants and policy functions.
-/

/-- Unicode White_Space code points, the set recognised by Rust's
char::is_whitespace, which str::trim strips from both ends. -/
def isRustWhitespace (c : Char) : Bool :=
  let n := c.toNat
  n == 9 || n == 10 || n == 11 || n == 12 || n == 13 || n == 32 || n == 133 ||
  n == 160 || n == 5760 || n == 8192 || n == 8193 || n == 8194 || n == 8195 ||
  n == 8196 || n == 8197 || n == 8198 || n == 8199 || n == 8200 || n == 8201 ||
  n == 8202 || n == 8232 || n == 8233 || n == 8239 || n == 8287 || n == 12288

/-- str::trim_start: drop leading whitespace. -/
def trimLeftK (s : List Char) : List Char :=
  s.dropWhile isRustWhitespace

/-- str::trim_end: drop trailing whitespace. -/
def trimRightK (s : List Char) : List Char :=
  (s.reverse.dropWhile isRustWhitespace).reverse

/-- str::trim: drop leading and trailing whitespace. -/
def trimK (s : List Char) : List Char :=
  trimRightK (trimLeftK s)

/-- str::len: the UTF-8 byte length of a string. -/
def byteLen (s : List Char) : Nat :=
  (s.map Char.utf8Size).sum

/-- is_ascii_allowed_fast from src/key.rs: the generic fast path accepting
ASCII alphanumerics, underscore, hyphen and dot. -/
def isAsciiAllowedFast (c : Char) : Bool :=
  c.isAlphanum || c == '_' || c == '-' || c == '.'

/-- The KeyParseError enum from src/error.rs (static strings modelled as
char lists). -/
inductive ParseErr where
  | Empty : ParseErr
  | InvalidCharacter (character : Char) (position : Nat)
      (expected : Option (List Char)) : ParseErr
  | TooLong (max_length actual_length : Nat) : ParseErr
  | InvalidStructure (reason : List Char) : ParseErr
  | DomainValidation (domain : List Char) (message : List Char) : ParseErr
  | Custom (code : Nat) (message : List Char) : ParseErr
deriving DecidableEq, Repr

/-- A KeyDomain implementation from src/domain.rs: the trait constants and
policy functions a domain supplies (optimization-hint constants, which have
no effect on the pipeline, are omitted). -/
structure Domain where
  name : List Char
  max_length : Nat
  min_length : Nat
  case_insensitive : Bool
  allowed_characters : Char → Bool
  allowed_start_character : Char → Bool
  allowed_end_character : Char → Bool
  allowed_consecutive_characters : Char → Char → Bool
  normalize_domain : List Char → List Char
  validate_domain_rules : List Char → Except ParseErr Unit

/-- The Key struct from src/key.rs: the stored text, the cached 64-bit hash
and the cached u32 length (the zero-sized domain marker has no runtime
content). -/
structure KeyV where
  text : List Char
  hash : Nat
  length : Nat
deriving DecidableEq, Repr

/-- Key::clone: field-for-field duplication, no re-validation or re-hashing. -/
def cloneK (k : KeyV) : KeyV :=
  ⟨k.text, k.hash, k.length⟩

/-- Key::compute_hash: the configured hash function guarded by the
empty-string early return. -/
def computeHash (hashFn : List Char → Nat) (key : List Char) : Nat :=
  if key.isEmpty then 0 else hashFn key

/-- The loop body of Key::validate_fast: prev is the previous character,
pos the byte offset of the current character. Each character must pass the
fast check or the domain predicate, each adjacent pair the consecutive
predicate, and the final character the end predicate. -/
def validateTail (D : Domain) (prev : Char) (pos : Nat) :
    List Char → Except ParseErr Unit
  | [] =>
    if !(D.allowed_end_character prev) then
      .error (.InvalidStructure ("invalid end character".toList))
    else .ok ()
  | c :: cs =>
    if !(isAsciiAllowedFast c || D.allowed_characters c) then
      .error (.InvalidCharacter c pos (some ("allowed by domain".toList)))
    else if !(D.allowed_consecutive_characters prev c) then
      .error (.InvalidStructure ("consecutive characters not allowed".toList))
    else validateTail D c (pos + c.utf8Size) cs

/-- Key::validate_fast: first character must pass the fast check or the
start predicate, then the loop over the remaining characters. -/
def validateFast (D : Domain) (key : List Char) : Except ParseErr Unit :=
  match key with
  | [] => .ok ()
  | first :: rest =>
    if !(isAsciiAllowedFast first || D.allowed_start_character first) then
      .error (.InvalidCharacter first 0 (some ("allowed by domain".toList)))
    else validateTail D first first.utf8Size rest

/-- Key::validate_common: trim, reject empty, enforce max then min length
(both via the TooLong variant, as the source does), then validate_fast. -/
def validateCommon (D : Domain) (key : List Char) : Except ParseErr Unit :=
  let trimmed := trimK key
  if trimmed.isEmpty then .error .Empty
  else if byteLen trimmed > D.max_length then
    .error (.TooLong D.max_length (byteLen trimmed))
  else if byteLen trimmed < D.min_length then
    .error (.TooLong D.min_length (byteLen trimmed))
  else validateFast D trimmed

/-- Key::normalize (borrowed input): trim, lowercase only when the domain is
case-insensitive and an ASCII uppercase is present, then the domain hook. -/
def normalizeK (D : Domain) (key : List Char) : List Char :=
  let trimmed := trimK key
  let lowercased :=
    if D.case_insensitive && trimmed.any Char.isUpper then
      trimmed.map Char.toLower
    else trimmed
  D.normalize_domain lowercased

/-- Key::normalize_owned (owned input): trim, then make_ascii_lowercase
unconditionally, then the domain hook. -/
def normalizeOwned (D : Domain) (key : List Char) : List Char :=
  D.normalize_domain ((trimK key).map Char.toLower)

/-- Key::fix_domain_error: rewrite the domain field of DomainValidation
errors to this domain's name; leave every other variant unchanged. -/
def fixDomainError (D : Domain) : ParseErr → ParseErr
  | .DomainValidation _ message => .DomainValidation D.name message
  | e => e

/-- Key::new / Key::new_optimized: common validation, borrowed-string
normalization, domain validation (with the domain-name fix), then hash and
u32 length caching. -/
def keyNew (hashFn : List Char → Nat) (D : Domain) (key : List Char) :
    Except ParseErr KeyV :=
  match validateCommon D key with
  | .error e => .error e
  | .ok _ =>
    let normalized := normalizeK D key
    match D.validate_domain_rules normalized with
    | .error e => .error (fixDomainError D e)
    | .ok _ =>
      if byteLen normalized < 2 ^ 32 then
        .ok ⟨normalized, computeHash hashFn normalized, byteLen normalized⟩
      else .error (.TooLong (2 ^ 32 - 1) (byteLen normalized))

/-- Key::from_string: common validation of the original string, owned-string
normalization, domain validation, then hash and u32 length caching. -/
def fromString (hashFn : List Char → Nat) (D : Domain) (key : List Char) :
    Except ParseErr KeyV :=
  match validateCommon D key with
  | .error e => .error e
  | .ok _ =>
    let normalized := normalizeOwned D key
    match D.validate_domain_rules normalized with
    | .error e => .error (fixDomainError D e)
    | .ok _ =>
      if byteLen normalized < 2 ^ 32 then
        .ok ⟨normalized, computeHash hashFn normalized, byteLen normalized⟩
      else .error (.TooLong (2 ^ 32 - 1) (byteLen normalized))

/-- slice::join as used by Key::from_parts: first part, then delimiter and
part for each remaining part. -/
def joinParts : List (List Char) → List Char → List Char
  | [], _ => []
  | p :: ps, d => p ++ (ps.map (fun q => d ++ q)).flatten

/-- Key::from_parts: reject an empty parts slice with Empty, any empty part
with InvalidStructure, an empty join with Empty, else run from_string on
the joined string. -/
def fromParts (hashFn : List Char → Nat) (D : Domain)
    (parts : List (List Char)) (delimiter : List Char) :
    Except ParseErr KeyV :=
  if parts.isEmpty then .error .Empty
  else if parts.any List.isEmpty then
    .error (.InvalidStructure ("Parts cannot contain empty strings".toList))
  else
    let joined := joinParts parts delimiter
    if joined.isEmpty then .error .Empty
    else fromString hashFn D joined

/-- Key::from_static_unchecked: skip all validation but still compute the
hash and the length; the as-u32 cast truncates modulo 2^32. -/
def fromStaticUnchecked (hashFn : List Char → Nat) (key : List Char) : KeyV :=
  ⟨key, computeHash hashFn key, byteLen key % 2 ^ 32⟩

/-- The prefix/suffix character scan of Key::ensure_prefix and
Key::ensure_suffix: the first character (with its char index from
enumerate) failing the domain's allowed-character predicate. -/
def firstDisallowed (D : Domain) (i : Nat) :
    List Char → Option (Char × Nat)
  | [] => none
  | c :: cs =>
    if !(D.allowed_characters c) then some (c, i)
    else firstDisallowed D (i + 1) cs

/-- Key::ensure_prefix: identity when the key already starts with the
prefix; otherwise length check against the cached length, prefix-only
character validation, domain validation of the combined string, and a fresh
hash/length. -/
def ensurePrefixK (hashFn : List Char → Nat) (D : Domain) (k : KeyV)
    (p : List Char) : Except ParseErr KeyV :=
  if p.isPrefixOf k.text then .ok (cloneK k)
  else
    let newLen := byteLen p + k.length
    if newLen > D.max_length then .error (.TooLong D.max_length newLen)
    else
      let result := p ++ k.text
      match firstDisallowed D 0 p with
      | some (c, i) =>
        .error (.InvalidCharacter c i (some ("allowed by domain".toList)))
      | none =>
        match D.validate_domain_rules result with
        | .error e => .error (fixDomainError D e)
        | .ok _ =>
          if newLen < 2 ^ 32 then
            .ok ⟨result, computeHash hashFn result, newLen⟩
          else .error (.TooLong (2 ^ 32 - 1) newLen)

/-- Key::ensure_suffix: identity when the key already ends with the suffix;
otherwise symmetric to ensure_prefix, with invalid-character positions
offset by the cached length. -/
def ensureSuffixK (hashFn : List Char → Nat) (D : Domain) (k : KeyV)
    (p : List Char) : Except ParseErr KeyV :=
  if p.isSuffixOf k.text then .ok (cloneK k)
  else
    let newLen := k.length + byteLen p
    if newLen > D.max_length then .error (.TooLong D.max_length newLen)
    else
      let result := k.text ++ p
      match firstDisallowed D 0 p with
      | some (c, i) =>
        .error (.InvalidCharacter c (k.length + i)
          (some ("allowed by domain".toList)))
      | none =>
        match D.validate_domain_rules result with
        | .error e => .error (fixDomainError D e)
        | .ok _ =>
          if newLen < 2 ^ 32 then
            .ok ⟨result, computeHash hashFn result, newLen⟩
          else .error (.TooLong (2 ^ 32 - 1) newLen)

/-- validation::validate_key from src/validation.rs: common validation,
borrowed-string normalization, then the raw domain hook (no domain-name
rewriting, no key object construction). -/
def validateKeyOnly (D : Domain) (key : List Char) : Except ParseErr Unit :=
  match validateCommon D key with
  | .error e => .error e
  | .ok _ => D.validate_domain_rules (normalizeK D key)

/-- Whether an Except value is the ok variant. -/
def exceptOk {α : Type} : Except ParseErr α → Bool
  | .ok _ => true
  | .error _ => false

/-- The cache invariant of a key value: the stored hash is the configured
hash of the stored text, and the stored length is its byte length. -/
def ExactWF (hashFn : List Char → Nat) (k : KeyV) : Prop :=
  k.hash = computeHash hashFn k.text ∧ k.length = byteLen k.text

/-- DefaultDomain from src/domain.rs: all trait defaults, max length 64,
case-insensitive. -/
def defaultDomain : Domain where
  name := "default".toList
  max_length := 64
  min_length := 1
  case_insensitive := true
  allowed_characters := fun c => c.isAlphanum || c == '_' || c == '-' || c == '.'
  allowed_start_character := fun c =>
    (c.isAlphanum || c == '_' || c == '-' || c == '.') &&
      !(c == '_') && !(c == '-') && !(c == '.')
  allowed_end_character := fun c =>
    (c.isAlphanum || c == '_' || c == '-' || c == '.') &&
      !(c == '_') && !(c == '-') && !(c == '.')
  allowed_consecutive_characters := fun prev curr =>
    !(prev == curr && (prev == '_' || prev == '-' || prev == '.'))
  normalize_domain := fun s => s
  validate_domain_rules := fun _ => .ok ()

/-- IdentifierDomain from src/domain.rs: case-sensitive, letters, digits and
underscore only, must start with a letter or underscore (enforced by its
custom validate hook); end and consecutive predicates are the trait
defaults applied to its overridden allowed_characters. -/
def identifierDomain : Domain where
  name := "identifier".toList
  max_length := 64
  min_length := 1
  case_insensitive := false
  allowed_characters := fun c => c.isAlphanum || c == '_'
  allowed_start_character := fun c => c.isAlpha || c == '_'
  allowed_end_character := fun c =>
    (c.isAlphanum || c == '_') && !(c == '_') && !(c == '-') && !(c == '.')
  allowed_consecutive_characters := fun prev curr =>
    !(prev == curr && (prev == '_' || prev == '-' || prev == '.'))
  normalize_domain := fun s => s
  validate_domain_rules := fun key =>
    match key with
    | [] => .ok ()
    | first :: _ =>
      if !(first.isAlpha || first == '_') then
        .error (.DomainValidation ("identifier".toList)
          ("Identifier must start with a letter or underscore".toList))
      else .ok ()

/-- A trivial injected hash capability used to instantiate witnesses: the
pipeline's behaviour does not depend on which deterministic function is
injected. -/
def constHash : List Char → Nat := fun _ => 0

/-- A KeyDomain instance within the trait contract (pure hooks, idempotent
normalization: the hook is constant) whose normalize hook inflates every
input to a string of 2^32 ASCII bytes; all other fields are the trait
defaults of src/domain.rs.  It exercises the u32 length conversion in
new_optimized/from_string, a step validation::validate_key does not
perform. -/
def inflatingDomain : Domain where
  name := "inflating".toList
  max_length := 64
  min_length := 1
  case_insensitive := true
  allowed_characters := fun c => c.isAlphanum || c == '_' || c == '-' || c == '.'
  allowed_start_character := fun c =>
    (c.isAlphanum || c == '_' || c == '-' || c == '.') &&
      !(c == '_') && !(c == '-') && !(c == '.')
  allowed_end_character := fun c =>
    (c.isAlphanum || c == '_' || c == '-' || c == '.') &&
      !(c == '_') && !(c == '-') && !(c == '.')
  allowed_consecutive_characters := fun prev curr =>
    !(prev == curr && (prev == '_' || prev == '-' || prev == '.'))
  normalize_domain := fun _ => List.replicate (2 ^ 32) 'a'
  validate_domain_rules := fun _ => .ok ()

/-- Bridge: the code point of a character built from a valid code point. -/
theorem char_toNat_ofNat (n : Nat) (h : Nat.isValidChar n) :
    (Char.ofNat n).toNat = n := by
  simp only [Char.ofNat, h, dif_pos, Char.ofNatAux, Char.toNat]
  rfl

/-- Bridge: UInt32 order reflects the order of the underlying naturals. -/
theorem uint32_le_iff (a b : UInt32) : a ≤ b ↔ a.toNat ≤ b.toNat := by
  simp [UInt32.le_def, BitVec.le_def]
  rfl

/-- A character is ASCII uppercase iff its code point is in the range 65-90. -/
theorem char_isUpper_iff (c : Char) :
    c.isUpper = true ↔ 65 ≤ c.toNat ∧ c.toNat ≤ 90 := by
  simp only [Char.isUpper, Bool.and_eq_true, decide_eq_true_eq, ge_iff_le]
  rw [uint32_le_iff, uint32_le_iff]
  exact Iff.rfl

/-- Negative form of char_isUpper_iff. -/
theorem char_isUpper_eq_false (c : Char) :
    c.isUpper = false ↔ ¬(65 ≤ c.toNat ∧ c.toNat ≤ 90) := by
  rw [← char_isUpper_iff]
  simp

/-- Lowercasing never produces an ASCII uppercase character. -/
theorem isUpper_toLower (c : Char) : (Char.toLower c).isUpper = false := by
  rw [Char.toLower]
  by_cases h : c.toNat ≥ 65 ∧ c.toNat ≤ 90
  · rw [if_pos h]
    have hv : Nat.isValidChar (c.toNat + 32) := by left; omega
    rw [char_isUpper_eq_false, char_toNat_ofNat _ hv]
    omega
  · rw [if_neg h, char_isUpper_eq_false]
    omega

/-- Characters with code points in the ASCII letter range are not
whitespace. -/
theorem ws_false_of_letter_range (c : Char) (h1 : 65 ≤ c.toNat)
    (h2 : c.toNat ≤ 122) : isRustWhitespace c = false := by
  simp only [isRustWhitespace, Bool.or_eq_false_iff, beq_eq_false_iff_ne]
  omega

/-- ASCII lowercasing does not change whether a character is whitespace. -/
theorem ws_toLower (c : Char) :
    isRustWhitespace (Char.toLower c) = isRustWhitespace c := by
  rw [Char.toLower]
  by_cases h : c.toNat ≥ 65 ∧ c.toNat ≤ 90
  · rw [if_pos h]
    have hv : Nat.isValidChar (c.toNat + 32) := by left; omega
    rw [ws_false_of_letter_range c (by omega) (by omega)]
    apply ws_false_of_letter_range
    · rw [char_toNat_ofNat _ hv]; omega
    · rw [char_toNat_ofNat _ hv]; omega
  · rw [if_neg h]

/-- dropWhile is idempotent. -/
theorem dropWhile_self {α : Type} (p : α → Bool) (l : List α) :
    (l.dropWhile p).dropWhile p = l.dropWhile p := by
  induction l with
  | nil => rfl
  | cons a l ih =>
    by_cases h : p a = true
    · simp [List.dropWhile_cons, h, ih]
    · simp [List.dropWhile_cons, h]

/-- If dropWhile leaves a cons unchanged, its head fails the predicate. -/
theorem pred_false_of_dropWhile_cons_eq {α : Type} (p : α → Bool) (a : α)
    (l : List α) (h : (a :: l).dropWhile p = a :: l) : p a = false := by
  by_contra hb
  rw [Bool.not_eq_false] at hb
  rw [List.dropWhile_cons_of_pos hb] at h
  have hle : (l.dropWhile p).length ≤ l.length :=
    (List.dropWhile_suffix p).length_le
  rw [h] at hle
  simp at hle

/-- A string is its right-trimmed part followed by trailing whitespace. -/
theorem trimRightK_eq_append (u : List Char) :
    u = trimRightK u ++ (u.reverse.takeWhile isRustWhitespace).reverse := by
  conv_lhs =>
    rw [← List.reverse_reverse u,
      ← List.takeWhile_append_dropWhile isRustWhitespace u.reverse]
  rw [List.reverse_append]
  rfl

/-- Left trimming is idempotent. -/
theorem trimLeftK_idem (s : List Char) : trimLeftK (trimLeftK s) = trimLeftK s :=
  dropWhile_self isRustWhitespace s

/-- Right trimming is idempotent. -/
theorem trimRightK_idem (u : List Char) :
    trimRightK (trimRightK u) = trimRightK u := by
  unfold trimRightK
  rw [List.reverse_reverse, dropWhile_self]

/-- Right trimming preserves the absence of leading whitespace. -/
theorem trimLeftK_trimRightK (u : List Char) (h : trimLeftK u = u) :
    trimLeftK (trimRightK u) = trimRightK u := by
  rcases hv : trimRightK u with _ | ⟨a, v⟩
  · rfl
  · have hw := trimRightK_eq_append u
    rw [hv] at hw
    have hu : trimLeftK ((a :: v) ++ (u.reverse.takeWhile isRustWhitespace).reverse)
        = (a :: v) ++ (u.reverse.takeWhile isRustWhitespace).reverse := by
      rw [← hw]; exact h
    rw [List.cons_append] at hu
    have hpa : isRustWhitespace a = false :=
      pred_false_of_dropWhile_cons_eq isRustWhitespace a _ hu
    show (a :: v).dropWhile isRustWhitespace = a :: v
    rw [List.dropWhile_cons_of_neg]
    simp [hpa]

/-- str::trim is idempotent. -/
theorem trimK_trimK (s : List Char) : trimK (trimK s) = trimK s := by
  unfold trimK
  rw [trimLeftK_trimRightK (trimLeftK s) (trimLeftK_idem s), trimRightK_idem]

/-- The whitespace predicate is invariant under toLower, as a composition. -/
theorem ws_comp_toLower :
    (isRustWhitespace ∘ Char.toLower) = isRustWhitespace := by
  funext c
  simp only [Function.comp]
  exact ws_toLower c

/-- Left trimming commutes with ASCII lowercasing. -/
theorem trimLeftK_map_toLower (l : List Char) :
    trimLeftK (l.map Char.toLower) = (trimLeftK l).map Char.toLower := by
  unfold trimLeftK
  rw [List.dropWhile_map, ws_comp_toLower]

/-- Right trimming commutes with ASCII lowercasing. -/
theorem trimRightK_map_toLower (l : List Char) :
    trimRightK (l.map Char.toLower) = (trimRightK l).map Char.toLower := by
  unfold trimRightK
  rw [← List.map_reverse, List.dropWhile_map, ws_comp_toLower, List.map_reverse]

/-- str::trim commutes with ASCII lowercasing. -/
theorem trimK_map_toLower (l : List Char) :
    trimK (l.map Char.toLower) = (trimK l).map Char.toLower := by
  unfold trimK
  rw [trimLeftK_map_toLower, trimRightK_map_toLower]

/-- A lowercased string contains no ASCII uppercase character. -/
theorem any_isUpper_map_toLower (l : List Char) :
    (l.map Char.toLower).any Char.isUpper = false := by
  induction l with
  | nil => rfl
  | cons a l ih => simp [List.any_cons, ih, isUpper_toLower]

/-- Byte length distributes over concatenation. -/
theorem byteLen_append (a b : List Char) :
    byteLen (a ++ b) = byteLen a + byteLen b := by
  simp [byteLen]

/-- Core fixed-point argument: the image of the domain hook on a trimmed,
(conditionally) uppercase-free string is a fixed point of Key::normalize,
provided the hook is idempotent, preserves trimmedness and introduces no
ASCII uppercase. -/
theorem normalize_fixed_core (D : Domain)
    (h1 : ∀ u, D.normalize_domain (D.normalize_domain u) = D.normalize_domain u)
    (h2 : ∀ u, trimK u = u → trimK (D.normalize_domain u) = D.normalize_domain u)
    (h3 : ∀ u, u.any Char.isUpper = false →
      (D.normalize_domain u).any Char.isUpper = false)
    (l : List Char) (hlt : trimK l = l)
    (hlu : D.case_insensitive = true → l.any Char.isUpper = false) :
    normalizeK D (D.normalize_domain l) = D.normalize_domain l := by
  have hcond : (D.case_insensitive &&
      (D.normalize_domain l).any Char.isUpper) = false := by
    rcases hci : D.case_insensitive with _ | _
    · rw [Bool.false_and]
    · rw [h3 l (hlu hci), Bool.and_false]
  simp only [normalizeK]
  rw [h2 l hlt, hcond]
  simp only [Bool.false_eq_true, if_false]
  exact h1 l

/-- The output of Key::normalize is a fixed point of Key::normalize for a
well-behaved domain hook. -/
theorem normalizeK_fixed (D : Domain)
    (h1 : ∀ u, D.normalize_domain (D.normalize_domain u) = D.normalize_domain u)
    (h2 : ∀ u, trimK u = u → trimK (D.normalize_domain u) = D.normalize_domain u)
    (h3 : ∀ u, u.any Char.isUpper = false →
      (D.normalize_domain u).any Char.isUpper = false)
    (s : List Char) :
    normalizeK D (normalizeK D s) = normalizeK D s := by
  rcases hcond : D.case_insensitive && (trimK s).any Char.isUpper with _ | _
  · have hrw : normalizeK D s = D.normalize_domain (trimK s) := by
      simp only [normalizeK]
      rw [hcond]
      simp
    rw [hrw]
    apply normalize_fixed_core D h1 h2 h3 (trimK s) (trimK_trimK s)
    intro hci
    rcases hup : (trimK s).any Char.isUpper with _ | _
    · rfl
    · rw [hci, hup] at hcond
      simp at hcond
  · have hrw : normalizeK D s = D.normalize_domain ((trimK s).map Char.toLower) := by
      simp only [normalizeK]
      rw [hcond]
      simp
    rw [hrw]
    apply normalize_fixed_core D h1 h2 h3
    · rw [trimK_map_toLower, trimK_trimK]
    · intro _
      exact any_isUpper_map_toLower (trimK s)

/-- The output of Key::normalize_owned is a fixed point of Key::normalize
for a well-behaved domain hook. -/
theorem normalizeOwned_fixed (D : Domain)
    (h1 : ∀ u, D.normalize_domain (D.normalize_domain u) = D.normalize_domain u)
    (h2 : ∀ u, trimK u = u → trimK (D.normalize_domain u) = D.normalize_domain u)
    (h3 : ∀ u, u.any Char.isUpper = false →
      (D.normalize_domain u).any Char.isUpper = false)
    (s : List Char) :
    normalizeK D (normalizeOwned D s) = normalizeOwned D s := by
  simp only [normalizeOwned]
  apply normalize_fixed_core D h1 h2 h3
  · rw [trimK_map_toLower, trimK_trimK]
  · intro _
    exact any_isUpper_map_toLower (trimK s)

/-- Inversion: a key built by Key::new stores the borrowed-path
normalization of its input. -/
theorem keyNew_ok_text (hashFn : List Char → Nat) (D : Domain)
    (s : List Char) (k : KeyV) (h : keyNew hashFn D s = .ok k) :
    k.text = normalizeK D s := by
  simp only [keyNew] at h
  split at h
  · exact absurd h (by simp)
  · split at h
    · exact absurd h (by simp)
    · split at h
      · cases h
        rfl
      · exact absurd h (by simp)

/-- Inversion: a key built by Key::from_string stores the owned-path
normalization of its input. -/
theorem fromString_ok_text (hashFn : List Char → Nat) (D : Domain)
    (s : List Char) (k : KeyV) (h : fromString hashFn D s = .ok k) :
    k.text = normalizeOwned D s := by
  simp only [fromString] at h
  split at h
  · exact absurd h (by simp)
  · split at h
    · exact absurd h (by simp)
    · split at h
      · cases h
        rfl
      · exact absurd h (by simp)

/-- Inversion: a successful Key::from_parts is a successful Key::from_string
of the joined parts. -/
theorem fromParts_ok (hashFn : List Char → Nat) (D : Domain)
    (parts : List (List Char)) (d : List Char) (k : KeyV)
    (h : fromParts hashFn D parts d = .ok k) :
    fromString hashFn D (joinParts parts d) = .ok k := by
  simp only [fromParts] at h
  split at h
  · exact absurd h (by simp)
  · split at h
    · exact absurd h (by simp)
    · split at h
      · exact absurd h (by simp)
      · exact h

/-- The validate_fast loop never produces a DomainValidation error. -/
theorem validateTail_no_domain_error (D : Domain) (e : ParseErr) :
    ∀ (l : List Char) (prev : Char) (pos : Nat),
    validateTail D prev pos l = .error e →
    ∀ d m, e ≠ ParseErr.DomainValidation d m := by
  intro l
  induction l with
  | nil =>
    intro prev pos h
    simp only [validateTail] at h
    split at h
    · cases h
      intro d m hdm
      cases hdm
    · exact absurd h (by simp)
  | cons c cs ih =>
    intro prev pos h
    simp only [validateTail] at h
    split at h
    · cases h
      intro d m hdm
      cases hdm
    · split at h
      · cases h
        intro d m hdm
        cases hdm
      · exact ih c (pos + c.utf8Size) h

/-- Key::validate_fast never produces a DomainValidation error. -/
theorem validateFast_no_domain_error (D : Domain) (s : List Char)
    (e : ParseErr) (h : validateFast D s = .error e) :
    ∀ d m, e ≠ ParseErr.DomainValidation d m := by
  simp only [validateFast] at h
  split at h
  · exact absurd h (by simp)
  · split at h
    · cases h
      intro d m hdm
      cases hdm
    · exact validateTail_no_domain_error D e _ _ _ h

/-- Key::validate_common never produces a DomainValidation error. -/
theorem validateCommon_no_domain_error (D : Domain) (s : List Char)
    (e : ParseErr) (h : validateCommon D s = .error e) :
    ∀ d m, e ≠ ParseErr.DomainValidation d m := by
  simp only [validateCommon] at h
  split at h
  · cases h
    intro d m hdm
    cases hdm
  · split at h
    · cases h
      intro d m hdm
      cases hdm
    · split at h
      · cases h
        intro d m hdm
        cases hdm
      · exact validateFast_no_domain_error D _ e h

/-- fix_domain_error only changes DomainValidation errors. -/
theorem fixDomainError_eq_self (D : Domain) (e : ParseErr)
    (h : ∀ d m, e ≠ ParseErr.DomainValidation d m) :
    fixDomainError D e = e := by
  cases e
  case DomainValidation d m => exact absurd rfl (h d m)
  all_goals rfl

/-- C1: evaluation of both constructors on the case-sensitive
IdentifierDomain at input "PublicVar".  Key::from_string stores
"publicvar" because normalize_owned calls make_ascii_lowercase
unconditionally, while Key::new on the same input stores "PublicVar"
as the specification requires (lowercase only when the domain is
case-insensitive and an ASCII uppercase is present). -/
theorem from_string_lowercases_case_sensitive_domain :
    (fromString constHash identifierDomain ("PublicVar".toList)).map KeyV.text
      = .ok ("publicvar".toList) ∧
    (keyNew constHash identifierDomain ("PublicVar".toList)).map KeyV.text
      = .ok ("PublicVar".toList) ∧
    identifierDomain.case_insensitive = false :=
  ⟨rfl, rfl, rfl⟩

/-- C2 counterexample: the hyphen is rejected by IdentifierDomain's
allowed-character predicate, yet construction of "a-b" succeeds, because
the scan accepts any character passing the generic ASCII fast path; so the
claim that every character after the first failing the domain predicate is
rejected is false. -/
theorem fast_path_accepts_domain_disallowed_char :
    identifierDomain.allowed_characters '-' = false ∧
    (keyNew constHash identifierDomain ("a-b".toList)).map KeyV.text
      = .ok ("a-b".toList) :=
  ⟨rfl, rfl⟩

/-- C2 (amended): in the character scan, a character after the first is
rejected with InvalidCharacter carrying the character and its byte
position exactly when it satisfies neither the generic ASCII fast check
nor the domain's allowed-character predicate; in particular, for the
default domain, construction of "key with spaces" fails with
InvalidCharacter at the space in position 3. -/
theorem subsequent_char_rejection (D : Domain) (prev c : Char) (pos : Nat)
    (cs : List Char)
    (h : (isAsciiAllowedFast c || D.allowed_characters c) = false) :
    validateTail D prev pos (c :: cs) =
      .error (.InvalidCharacter c pos (some ("allowed by domain".toList))) ∧
    keyNew constHash defaultDomain ("key with spaces".toList) =
      .error (.InvalidCharacter ' ' 3 (some ("allowed by domain".toList))) := by
  constructor
  · simp [validateTail, h]
  · rfl

/-- Witness for subsequent_char_rejection at the space character. -/
theorem subsequent_char_rejection_witness :
    validateTail defaultDomain 'a' 5 [' '] =
      .error (.InvalidCharacter ' ' 5 (some ("allowed by domain".toList))) ∧
    keyNew constHash defaultDomain ("key with spaces".toList) =
      .error (.InvalidCharacter ' ' 3 (some ("allowed by domain".toList))) :=
  subsequent_char_rejection defaultDomain 'a' ' ' 5 [] (by decide)

/-- C3 counterexample: a key produced by Key::ensure_prefix need not be a
fixed point of normalization: prefixing "profile" with "USER_" in the
case-insensitive default domain yields the key "USER_profile", which
re-normalizes to "user_profile". -/
theorem ensure_prefix_breaks_normalization_fixed_point :
    keyNew constHash defaultDomain ("profile".toList)
      = .ok ⟨"profile".toList, 0, 7⟩ ∧
    ensurePrefixK constHash defaultDomain ⟨"profile".toList, 0, 7⟩
      ("USER_".toList) = .ok ⟨"USER_profile".toList, 0, 12⟩ ∧
    normalizeK defaultDomain ("USER_profile".toList) ≠ "USER_profile".toList :=
  ⟨rfl, rfl, by decide⟩

/-- C3 (amended): keys produced by Key::new, Key::from_string or
Key::from_parts store a fixed point of the full normalization function,
for every domain whose normalize hook is idempotent, preserves
trimmedness and introduces no ASCII uppercase; keys produced by
ensure_prefix/ensure_suffix are exempt. -/
theorem pipeline_keys_are_normalization_fixed_points
    (hashFn : List Char → Nat) (D : Domain) (s d : List Char)
    (parts : List (List Char)) (k : KeyV)
    (h1 : ∀ u, D.normalize_domain (D.normalize_domain u) = D.normalize_domain u)
    (h2 : ∀ u, trimK u = u → trimK (D.normalize_domain u) = D.normalize_domain u)
    (h3 : ∀ u, u.any Char.isUpper = false →
      (D.normalize_domain u).any Char.isUpper = false)
    (hk : keyNew hashFn D s = .ok k ∨ fromString hashFn D s = .ok k ∨
      fromParts hashFn D parts d = .ok k) :
    normalizeK D k.text = k.text := by
  rcases hk with h | h | h
  · rw [keyNew_ok_text hashFn D s k h]
    exact normalizeK_fixed D h1 h2 h3 s
  · rw [fromString_ok_text hashFn D s k h]
    exact normalizeOwned_fixed D h1 h2 h3 s
  · rw [fromString_ok_text hashFn D _ k (fromParts_ok hashFn D parts d k h)]
    exact normalizeOwned_fixed D h1 h2 h3 _

/-- Witness for pipeline_keys_are_normalization_fixed_points on the default
domain at input "alice". -/
theorem pipeline_keys_are_normalization_fixed_points_witness :
    normalizeK defaultDomain ("alice".toList) = "alice".toList :=
  pipeline_keys_are_normalization_fixed_points constHash defaultDomain
    ("alice".toList) [] [] ⟨"alice".toList, 0, 5⟩
    (fun _ => rfl) (fun _ h => h) (fun _ h => h) (Or.inl rfl)

/-- C4: every key produced by a public operation satisfies the cache
invariant: the stored hash is the configured hash function applied to the
stored text and the stored length is the byte length of the stored text
(for the unchecked static constructor, under its caller contract that the
text is a valid key, in particular shorter than u32::MAX; the derivation
operations preserve the invariant). -/
theorem cache_fields_match_text (hashFn : List Char → Nat) (D : Domain)
    (s p d : List Char) (parts : List (List Char)) (k r : KeyV) :
    (keyNew hashFn D s = .ok k → ExactWF hashFn k) ∧
    (fromString hashFn D s = .ok k → ExactWF hashFn k) ∧
    (fromParts hashFn D parts d = .ok k → ExactWF hashFn k) ∧
    (byteLen s < 2 ^ 32 → ExactWF hashFn (fromStaticUnchecked hashFn s)) ∧
    (ExactWF hashFn k → ExactWF hashFn (cloneK k)) ∧
    (ExactWF hashFn k → ensurePrefixK hashFn D k p = .ok r → ExactWF hashFn r) ∧
    (ExactWF hashFn k → ensureSuffixK hashFn D k p = .ok r → ExactWF hashFn r) := by
  have hfs : ∀ (s' : List Char), fromString hashFn D s' = .ok k → ExactWF hashFn k := by
    intro s' h
    simp only [fromString] at h
    split at h
    · exact absurd h (by simp)
    · split at h
      · exact absurd h (by simp)
      · split at h
        · cases h
          exact ⟨rfl, rfl⟩
        · exact absurd h (by simp)
  refine ⟨?_, hfs s, ?_, ?_, ?_, ?_, ?_⟩
  · intro h
    simp only [keyNew] at h
    split at h
    · exact absurd h (by simp)
    · split at h
      · exact absurd h (by simp)
      · split at h
        · cases h
          exact ⟨rfl, rfl⟩
        · exact absurd h (by simp)
  · intro h
    exact hfs _ (fromParts_ok hashFn D parts d k h)
  · intro h
    exact ⟨rfl, Nat.mod_eq_of_lt h⟩
  · intro h
    exact h
  · intro hwf h
    simp only [ensurePrefixK] at h
    split at h
    · cases h
      exact hwf
    · split at h
      · exact absurd h (by simp)
      · split at h
        · exact absurd h (by simp)
        · split at h
          · exact absurd h (by simp)
          · split at h
            · cases h
              refine ⟨rfl, ?_⟩
              show byteLen p + k.length = byteLen (p ++ k.text)
              rw [byteLen_append, hwf.2]
            · exact absurd h (by simp)
  · intro hwf h
    simp only [ensureSuffixK] at h
    split at h
    · cases h
      exact hwf
    · split at h
      · exact absurd h (by simp)
      · split at h
        · exact absurd h (by simp)
        · split at h
          · exact absurd h (by simp)
          · split at h
            · cases h
              refine ⟨rfl, ?_⟩
              show k.length + byteLen p = byteLen (k.text ++ p)
              rw [byteLen_append, hwf.2]
            · exact absurd h (by simp)

/-- Witness for cache_fields_match_text: the key built from "alice" in the
default domain satisfies the cache invariant. -/
theorem cache_fields_match_text_witness :
    ExactWF constHash ⟨"alice".toList, 0, 5⟩ :=
  (cache_fields_match_text constHash defaultDomain ("alice".toList) [] []
    [] ⟨"alice".toList, 0, 5⟩ ⟨"alice".toList, 0, 5⟩).1 rfl

/-- C5 counterexample: an empty parts sequence is rejected with the Empty
error, the same variant as an empty input, not with a dedicated structural
error as the claim states. -/
theorem from_parts_empty_sequence_rejected_with_empty :
    fromParts constHash defaultDomain [] ("_".toList) = .error .Empty ∧
    ParseErr.Empty ≠
      ParseErr.InvalidStructure ("Parts cannot contain empty strings".toList) :=
  ⟨rfl, by decide⟩

/-- C5 (amended): Key::from_parts rejects an empty parts sequence with
Empty and a sequence containing an empty part with the dedicated
structural error, both before joining; for a non-empty sequence of
non-empty parts it returns exactly the result of the full owned-string
pipeline (Key::from_string) on the delimiter-joined concatenation. -/
theorem from_parts_structural_checks_and_join (hashFn : List Char → Nat)
    (D : Domain) (parts : List (List Char)) (d : List Char) :
    (parts = [] → fromParts hashFn D parts d = .error .Empty) ∧
    (parts.any List.isEmpty = true →
      fromParts hashFn D parts d =
        .error (.InvalidStructure ("Parts cannot contain empty strings".toList))) ∧
    (parts ≠ [] → parts.any List.isEmpty = false →
      fromParts hashFn D parts d = fromString hashFn D (joinParts parts d)) := by
  refine ⟨?_, ?_, ?_⟩
  · intro h
    subst h
    rfl
  · intro hany
    have hnotempty : parts.isEmpty = false := by
      cases parts with
      | nil => simp at hany
      | cons p ps => rfl
    simp [fromParts, hnotempty, hany]
  · intro hne hnone
    have hnotempty : parts.isEmpty = false := by
      cases parts with
      | nil => exact absurd rfl hne
      | cons p ps => rfl
    have hjoin : (joinParts parts d).isEmpty = false := by
      cases parts with
      | nil => exact absurd rfl hne
      | cons p ps =>
        rw [List.any_cons, Bool.or_eq_false_iff] at hnone
        cases p with
        | nil => simp at hnone
        | cons a as => rfl
    simp [fromParts, hnotempty, hnone, hjoin]

/-- Witness for from_parts_structural_checks_and_join: the three-part join
of concrete scenario 3. -/
theorem from_parts_structural_checks_and_join_witness :
    fromParts constHash defaultDomain
        ["user".toList, "123".toList, "profile".toList] ("_".toList) =
      fromString constHash defaultDomain
        (joinParts ["user".toList, "123".toList, "profile".toList] ("_".toList)) :=
  (from_parts_structural_checks_and_join constHash defaultDomain
    ["user".toList, "123".toList, "profile".toList] ("_".toList)).2.2
    (by decide) (by decide)

/-- C6: when common validation passes and the domain's validate hook
rejects the normalized text with a DomainValidation error, construction
(both the borrowed and owned paths) reports DomainValidation carrying this
domain's name, whatever domain name the hook filled in. -/
theorem domain_error_carries_domain_name (hashFn : List Char → Nat)
    (D : Domain) (s d m : List Char) (hc : validateCommon D s = .ok ()) :
    (D.validate_domain_rules (normalizeK D s) =
        .error (.DomainValidation d m) →
      keyNew hashFn D s = .error (.DomainValidation D.name m)) ∧
    (D.validate_domain_rules (normalizeOwned D s) =
        .error (.DomainValidation d m) →
      fromString hashFn D s = .error (.DomainValidation D.name m)) := by
  constructor
  · intro h
    simp [keyNew, hc, h, fixDomainError]
  · intro h
    simp [fromString, hc, h, fixDomainError]

/-- Witness for domain_error_carries_domain_name: IdentifierDomain rejects
"9abc" through its validate hook and the error carries the domain name. -/
theorem domain_error_carries_domain_name_witness :
    keyNew constHash identifierDomain ("9abc".toList) =
      .error (.DomainValidation identifierDomain.name
        ("Identifier must start with a letter or underscore".toList)) :=
  (domain_error_carries_domain_name constHash identifierDomain
    ("9abc".toList) ("identifier".toList)
    ("Identifier must start with a letter or underscore".toList) rfl).1 rfl

/-- C7: a valid key (one whose stored text passes common validation, is a
fixed point of normalization, passes the domain hook, and whose cached
hash is the hash of its text) round-trips: re-running construction on its
text succeeds and yields the same text and the same hash. -/
theorem valid_key_round_trip (hashFn : List Char → Nat) (D : Domain)
    (k : KeyV) (hcommon : validateCommon D k.text = .ok ())
    (hfix : normalizeK D k.text = k.text)
    (hdom : D.validate_domain_rules k.text = .ok ())
    (hhash : k.hash = computeHash hashFn k.text)
    (hlen : byteLen k.text < 2 ^ 32) :
    (keyNew hashFn D k.text).map KeyV.text = .ok k.text ∧
    (keyNew hashFn D k.text).map KeyV.hash = .ok k.hash := by
  have hkey : keyNew hashFn D k.text =
      .ok ⟨k.text, computeHash hashFn k.text, byteLen k.text⟩ := by
    simp only [keyNew, hcommon, hfix, hdom]
    rw [if_pos hlen]
  rw [hkey]
  constructor
  · rfl
  · rw [hhash]
    rfl

/-- Witness for valid_key_round_trip at the key "alice" of the default
domain. -/
theorem valid_key_round_trip_witness :
    (keyNew constHash defaultDomain ("alice".toList)).map KeyV.text
        = .ok ("alice".toList) ∧
    (keyNew constHash defaultDomain ("alice".toList)).map KeyV.hash
        = .ok 0 :=
  valid_key_round_trip constHash defaultDomain ⟨"alice".toList, 0, 5⟩
    rfl rfl rfl rfl (by decide)

/-- C8: ensure_prefix is idempotent (a second application to a successful
result is the identity) and is the identity without re-validation when the
key already starts with the prefix; symmetrically for ensure_suffix. -/
theorem ensure_ops_idempotent (hashFn : List Char → Nat) (D : Domain)
    (k r : KeyV) (p : List Char) :
    (ensurePrefixK hashFn D k p = .ok r →
      ensurePrefixK hashFn D r p = .ok r) ∧
    (p.isPrefixOf k.text = true → ensurePrefixK hashFn D k p = .ok k) ∧
    (ensureSuffixK hashFn D k p = .ok r →
      ensureSuffixK hashFn D r p = .ok r) ∧
    (p.isSuffixOf k.text = true → ensureSuffixK hashFn D k p = .ok k) := by
  have hidp : ∀ (k' : KeyV), p.isPrefixOf k'.text = true →
      ensurePrefixK hashFn D k' p = .ok k' := by
    intro k' h
    simp [ensurePrefixK, h, cloneK]
  have hids : ∀ (k' : KeyV), p.isSuffixOf k'.text = true →
      ensureSuffixK hashFn D k' p = .ok k' := by
    intro k' h
    simp [ensureSuffixK, h, cloneK]
  refine ⟨?_, hidp k, ?_, hids k⟩
  · intro h
    apply hidp r
    simp only [ensurePrefixK] at h
    split at h
    · rename_i hpre
      cases h
      exact hpre
    · split at h
      · exact absurd h (by simp)
      · split at h
        · exact absurd h (by simp)
        · split at h
          · exact absurd h (by simp)
          · split at h
            · cases h
              rw [List.isPrefixOf_iff_prefix]
              exact List.prefix_append p k.text
            · exact absurd h (by simp)
  · intro h
    apply hids r
    simp only [ensureSuffixK] at h
    split at h
    · rename_i hsuf
      cases h
      exact hsuf
    · split at h
      · exact absurd h (by simp)
      · split at h
        · exact absurd h (by simp)
        · split at h
          · exact absurd h (by simp)
          · split at h
            · cases h
              rw [List.isSuffixOf_iff_suffix]
              exact List.suffix_append k.text p
            · exact absurd h (by simp)

/-- Witness for ensure_ops_idempotent: applying ensure_prefix "USER_"
twice to the key "profile" of the default domain is a no-op the second
time. -/
theorem ensure_ops_idempotent_witness :
    ensurePrefixK constHash defaultDomain ⟨"USER_profile".toList, 0, 12⟩
      ("USER_".toList) = .ok ⟨"USER_profile".toList, 0, 12⟩ :=
  (ensure_ops_idempotent constHash defaultDomain ⟨"profile".toList, 0, 7⟩
    ⟨"USER_profile".toList, 0, 12⟩ ("USER_".toList)).1 rfl

/-- C9: for keys satisfying the cache invariant (as all keys produced by
the public operations do), equality of key values coincides with equality
of their stored text, and equal text forces equal cached hash. -/
theorem key_equality_iff_text_equality (hashFn : List Char → Nat)
    (a b : KeyV) (ha : ExactWF hashFn a) (hb : ExactWF hashFn b) :
    (a = b ↔ a.text = b.text) ∧ (a.text = b.text → a.hash = b.hash) := by
  have hh : a.text = b.text → a.hash = b.hash := by
    intro h
    rw [ha.1, hb.1, h]
  have hl : a.text = b.text → a.length = b.length := by
    intro h
    rw [ha.2, hb.2, h]
  refine ⟨⟨fun h => by rw [h], fun h => ?_⟩, hh⟩
  have hh' := hh h
  have hl' := hl h
  cases a
  cases b
  simp only [KeyV.mk.injEq]
  exact ⟨h, hh', hl'⟩

/-- Witness for key_equality_iff_text_equality at two equal keys built
from "alice". -/
theorem key_equality_iff_text_equality_witness :
    ((⟨"alice".toList, 0, 5⟩ : KeyV) = ⟨"alice".toList, 0, 5⟩ ↔
      ("alice".toList : List Char) = "alice".toList) ∧
    (("alice".toList : List Char) = "alice".toList → (0 : Nat) = 0) :=
  key_equality_iff_text_equality constHash ⟨"alice".toList, 0, 5⟩
    ⟨"alice".toList, 0, 5⟩ ⟨rfl, rfl⟩ ⟨rfl, rfl⟩

/-- Byte length of a replicated character. -/
theorem byteLen_replicate (n : Nat) (c : Char) :
    byteLen (List.replicate n c) = n * c.utf8Size := by
  simp [byteLen, List.map_replicate, List.sum_replicate]

/-- C10 counterexample: the entry points are not equivalent on every input.
With a domain whose (pure, constant, hence idempotent) normalize hook
inflates the text to 2^32 bytes, validation::validate_key accepts "x"
while Key::new rejects it: the constructor's u32::try_from length guard,
which runs after normalization, has no counterpart in validate_key. -/
theorem validate_key_diverges_on_inflating_normalize :
    validateKeyOnly inflatingDomain ("x".toList) = .ok () ∧
    keyNew constHash inflatingDomain ("x".toList) =
      .error (.TooLong (2 ^ 32 - 1) (2 ^ 32)) := by
  constructor
  · rfl
  · have hvc : validateCommon inflatingDomain ("x".toList) = .ok () := rfl
    have hnorm : normalizeK inflatingDomain ("x".toList) =
        List.replicate (2 ^ 32) 'a' := rfl
    have hdr : inflatingDomain.validate_domain_rules
        (List.replicate (2 ^ 32) 'a') = .ok () := rfl
    have hlen : byteLen (List.replicate (2 ^ 32) 'a') = 2 ^ 32 := by
      rw [byteLen_replicate]
      rfl
    simp only [keyNew, hvc, hnorm, hdr, hlen]
    rw [if_neg (by omega)]

/-- C10 (amended): as long as the normalized text stays below the u32
length guard, the validation-only entry point validate_key accepts exactly
the inputs the constructor Key::new accepts, and on failure the
constructor returns the validation error with only the domain-name field
of DomainValidation errors rewritten (the fix_domain_error
transformation); when normalization inflates the text to 2^32 bytes or
more the two entry points diverge. -/
theorem validate_key_agrees_with_constructor (hashFn : List Char → Nat)
    (D : Domain) (s : List Char)
    (hlen : byteLen (normalizeK D s) < 2 ^ 32) :
    exceptOk (validateKeyOnly D s) = exceptOk (keyNew hashFn D s) ∧
    ∀ e, validateKeyOnly D s = .error e →
      keyNew hashFn D s = .error (fixDomainError D e) := by
  cases hvc : validateCommon D s with
  | error e0 =>
    constructor
    · simp [validateKeyOnly, keyNew, hvc, exceptOk]
    · intro e he
      simp only [validateKeyOnly, hvc] at he
      cases he
      simp only [keyNew, hvc]
      rw [fixDomainError_eq_self D e0
        (validateCommon_no_domain_error D s e0 hvc)]
  | ok u =>
    cases u
    cases hdr : D.validate_domain_rules (normalizeK D s) with
    | error e0 =>
      constructor
      · simp [validateKeyOnly, keyNew, hvc, hdr, exceptOk]
      · intro e he
        simp only [validateKeyOnly, hvc, hdr] at he
        cases he
        simp [keyNew, hvc, hdr]
    | ok u2 =>
      cases u2
      constructor
      · simp only [validateKeyOnly, keyNew, hvc, hdr]
        rw [if_pos hlen]
        rfl
      · intro e he
        simp only [validateKeyOnly, hvc, hdr] at he
        exact absurd he (by simp)

/-- Witness for validate_key_agrees_with_constructor on IdentifierDomain
at the domain-rejected input "9abc". -/
theorem validate_key_agrees_with_constructor_witness :
    exceptOk (validateKeyOnly identifierDomain ("9abc".toList)) =
      exceptOk (keyNew constHash identifierDomain ("9abc".toList)) ∧
    keyNew constHash identifierDomain ("9abc".toList) =
      .error (fixDomainError identifierDomain
        (.DomainValidation ("identifier".toList)
          ("Identifier must start with a letter or underscore".toList))) :=
  ⟨(validate_key_agrees_with_constructor constHash identifierDomain
      ("9abc".toList) (by decide)).1,
   (validate_key_agrees_with_constructor constHash identifierDomain
      ("9abc".toList) (by decide)).2 _ rfl⟩
